import Mathlib

/-!
# Merge/Split service (`index.js`)

A shallow embedding of the two request handlers of `index.js`:

* `POST /pdf/merge` (lines 15-43): `mergeHandler`
* `POST /pdf/split` (lines 46-84): `splitHandler`

The PDF engine (`pdf-lib`) and the archive writer are external libraries.  They
are modelled by their page-level behaviour: a document is its ordered page
sequence, `copyPages` returns the pages at the listed indices unchanged,
`addPage` appends, and a byte buffer is represented by what the engine decodes
it to.  JavaScript numbers are integers (`Int`) wherever the handler only adds,
compares and takes minima of integers, and rationals (`ℚ`) where it divides;
the arithmetic is exact, as it is in JavaScript for the whole numbers below
`2^53` that page counts are.  The partition loop is run with an iteration
budget (`fuel`), so that a loop that never exits is a value of the model too.
-/

namespace MergeSplit

/-! ## PDF engine -/

/-- A `PDFDocument`: its ordered pages, and whether the service's descriptive
fields have been written into it. -/
structure PDFDocument (Page : Type) where
  pages : List Page
  stamped : Bool
deriving DecidableEq, Repr

/-- A byte buffer, represented by the result of decoding it: either bytes that
`PDFDocument.load` decodes to the document `doc`, or bytes the engine rejects
with the given error message. -/
inductive Buffer (Page : Type) where
  | pdf (doc : PDFDocument Page)
  | invalid (message : String)
deriving DecidableEq, Repr

variable {Page : Type}

/-- `PDFDocument.create()`: a new document without pages. -/
def PDFDocument.create : PDFDocument Page := { pages := [], stamped := false }

/-- `PDFDocument.load(buffer)`: decodes a buffer, throwing on bytes that are
not a document. -/
def PDFDocument.load : Buffer Page → Except String (PDFDocument Page)
  | .pdf doc => .ok doc
  | .invalid message => .error message

/-- `doc.getPageCount()`. -/
def PDFDocument.getPageCount (doc : PDFDocument Page) : Nat := doc.pages.length

/-- `doc.getPageIndices()`: `[0, 1, ..., pageCount - 1]`. -/
def PDFDocument.getPageIndices (doc : PDFDocument Page) : List Int :=
  (List.range doc.getPageCount).map (fun (k : Nat) => (k : Int))

/-- The page of `src` at a JavaScript index; `none` where `srcPages[index]` is
`undefined`. -/
def pageAt (src : PDFDocument Page) (index : Int) : Option Page :=
  if index < 0 then none else src.pages.get? index.toNat

/-- `dst.copyPages(src, indices)`: the pages of `src` at `indices`, in the
order listed; throws when an index has no page. -/
def copyPages (src : PDFDocument Page) : List Int → Except String (List Page)
  | [] => .ok []
  | index :: rest =>
    match pageAt src index with
    | none => .error "Cannot read properties of undefined"
    | some page =>
      match copyPages src rest with
      | .error message => .error message
      | .ok pages => .ok (page :: pages)

/-- `doc.addPage(page)`: appends the page at the end. -/
def PDFDocument.addPage (doc : PDFDocument Page) (page : Page) : PDFDocument Page :=
  { doc with pages := doc.pages ++ [page] }

/-- `doc.save()` followed by `Buffer.from(...)`: the bytes of the document.
The engine's `save()` first runs `if (this.getPageCount() === 0) this.addPage()`,
so a document without pages is saved with one blank page; `default` is the
blank page that `addPage()` creates.  Loading the saved bytes gives the saved
document back. -/
def PDFDocument.save [Inhabited Page] (doc : PDFDocument Page) : Buffer Page :=
  if doc.getPageCount = 0 then .pdf (doc.addPage default) else .pdf doc

/-- `pages.forEach((page) => doc.addPage(page))`. -/
def addPages (doc : PDFDocument Page) (pages : List Page) : PDFDocument Page :=
  pages.foldl PDFDocument.addPage doc

/-- Modelled from the spec: `addEndlessForgeMetadata` of `./utils/pdfMetadata.js`,
which is imported by `index.js` but is not among the sources.  It writes the
fixed descriptive fields into the document and alters neither page content nor
page count. -/
def addEndlessForgeMetadata (doc : PDFDocument Page) : PDFDocument Page :=
  { doc with stamped := true }

/-! ## Merge handler -/

/-- Calls made to the PDF engine and to the metadata stamper. -/
inductive EngineCall where
  | create
  | load
  | copyPages
  | addPage
  | stamp
  | save
deriving DecidableEq, Repr

/-- What a response carries. -/
inductive Body (Page : Type) where
  | json (error : String)
  | bytes (buffer : Buffer Page)
deriving DecidableEq, Repr

/-- A response sent with `res.status(..).json(..)` or `res.send(..)`. -/
structure Response (Page : Type) where
  status : Nat
  headers : List (String × String)
  body : Body Page
deriving DecidableEq, Repr

/-- Everything observable of one handled request: the engine calls made, in
order, and the responses sent, in order. -/
structure Outcome (Page : Type) where
  calls : List EngineCall
  responses : List (Response Page)
deriving DecidableEq, Repr

/-- The loop of lines 26-30.  Returns the calls made so far together with the
merged document, or with the message of the error thrown. -/
def mergeLoop : List (Buffer Page) → PDFDocument Page → List EngineCall →
    List EngineCall × Except String (PDFDocument Page)
  | [], mergedPdf, calls => (calls, .ok mergedPdf)
  | file :: rest, mergedPdf, calls =>
    match PDFDocument.load file with
    | .error message => (calls ++ [.load], .error message)
    | .ok pdf =>
      match copyPages pdf pdf.getPageIndices with
      | .error message => (calls ++ [.load, .copyPages], .error message)
      | .ok pages =>
        mergeLoop rest (addPages mergedPdf pages)
          (calls ++ [.load, .copyPages] ++ pages.map (fun _ => EngineCall.addPage))

/-- The handler of `POST /pdf/merge` (lines 19-43).  `files` is `req.files`,
`none` when it is absent. -/
def mergeHandler [Inhabited Page] (files : Option (List (Buffer Page))) : Outcome Page :=
  match files with
  | none =>
    { calls := [], responses := [⟨400, [], .json "Upload at least 2 PDFs"⟩] }
  | some files =>
    if files.length < 2 then
      { calls := [], responses := [⟨400, [], .json "Upload at least 2 PDFs"⟩] }
    else
      match mergeLoop files PDFDocument.create [.create] with
      | (calls, .error message) =>
        { calls := calls, responses := [⟨500, [], .json message⟩] }
      | (calls, .ok mergedPdf) =>
        let mergedPdf := addEndlessForgeMetadata mergedPdf
        let mergedBytes := mergedPdf.save
        { calls := calls ++ [.stamp, .save],
          responses := [⟨200, [("Content-Type", "application/pdf"),
            ("Content-Disposition", "attachment; filename=\"merged.pdf\"")],
            .bytes mergedBytes⟩] }

/-! ## Split handler -/

/-- The fields `parts` and `pagesPerSplit` of `req.body` after `parseInt`:
`none` where `parseInt` yields `NaN` (field missing or not numeric). -/
structure SplitBody where
  parts : Option Int
  pagesPerSplit : Option Int
deriving DecidableEq, Repr

/-- `parseInt(field) || 0`. -/
def parsedOrZero (field : Option Int) : Int :=
  match field with
  | none => 0
  | some n => if n = 0 then 0 else n

/-- `Math.ceil(totalPages / parts)` for a non-zero divisor. -/
def ceilDiv (totalPages parts : Int) : Int := ⌈(totalPages : ℚ) / (parts : ℚ)⌉

/-- Lines 57-60: the value of `pagesPerSplit` when the loop starts. -/
def resolvePagesPerSplit (totalPages : Int) (body : SplitBody) : Int :=
  let parts := parsedOrZero body.parts
  let pagesPerSplit := parsedOrZero body.pagesPerSplit
  let pagesPerSplit := if parts = 0 ∧ pagesPerSplit = 0 then 1 else pagesPerSplit
  if parts > 0 then ceilDiv totalPages parts else pagesPerSplit

/-- One entry appended to the archive: `partNumber` is the value of
`i / pagesPerSplit + 1` interpolated into the name `part_<partNumber>.pdf`
(`none` when `pagesPerSplit` is zero, where the quotient is `NaN` or infinite),
`data` the saved part, and `pagesToCopy` the indices the part was copied from. -/
structure ArchiveEntry (Page : Type) where
  partNumber : Option ℚ
  data : Buffer Page
  pagesToCopy : List Int
deriving DecidableEq, Repr

/-- The value of `i / pagesPerSplit + 1` (line 76). -/
def partNumber (i pagesPerSplit : Int) : Option ℚ :=
  if pagesPerSplit = 0 then none else some ((i : ℚ) / (pagesPerSplit : ℚ) + 1)

/-- The name `part_<partNumber>.pdf` given to an archive entry (line 76), for
the part numbers that are whole and non-negative, which print as their decimal
digits; `none` for the other numbers, whose printed form is not modelled. -/
def ArchiveEntry.name (entry : ArchiveEntry Page) : Option String :=
  match entry.partNumber with
  | none => none
  | some q =>
    if q.den = 1 ∧ 0 ≤ q.num then some ("part_" ++ toString q.num.toNat ++ ".pdf") else none

/-- `Array.from({ length: end - i }, (_, idx) => i + idx)` (line 71); a
negative length gives the empty array. -/
def pagesToCopy (i end_ : Int) : List Int :=
  (List.range (end_ - i).toNat).map (fun (idx : Nat) => i + (idx : Int))

/-- The body of the loop (lines 69-76) for the stride starting at `i`. -/
def splitPart [Inhabited Page] (pdf : PDFDocument Page) (totalPages pagesPerSplit i : Int) :
    Except String (ArchiveEntry Page) :=
  let newPdf : PDFDocument Page := PDFDocument.create
  let end_ := min (i + pagesPerSplit) totalPages
  let indices := pagesToCopy i end_
  match copyPages pdf indices with
  | .error message => .error message
  | .ok copiedPages =>
    let newPdf := addPages newPdf copiedPages
    let newPdf := addEndlessForgeMetadata newPdf
    let pdfBytes := newPdf.save
    .ok { partNumber := partNumber i pagesPerSplit, data := pdfBytes, pagesToCopy := indices }

/-- How a run of the partition loop ends. -/
inductive LoopResult (Page : Type) where
  /-- The loop condition became false; the entries appended, in order. -/
  | finished (entries : List (ArchiveEntry Page))
  /-- An iteration threw; the entries appended before it. -/
  | failed (message : String) (entries : List (ArchiveEntry Page))
  /-- The loop was still running after the allowed number of iterations. -/
  | running (i : Int) (entries : List (ArchiveEntry Page))
deriving DecidableEq, Repr

/-- The loop `for (let i = ..; i < totalPages; i += pagesPerSplit)` of lines
68-77, started at `i` with `entries` already appended and allowed at most
`fuel` iterations. -/
def splitLoop [Inhabited Page] (pdf : PDFDocument Page) (totalPages pagesPerSplit : Int) :
    Nat → Int → List (ArchiveEntry Page) → LoopResult Page
  | fuel, i, entries =>
    if i < totalPages then
      match fuel with
      | 0 => .running i entries
      | fuel + 1 =>
        match splitPart pdf totalPages pagesPerSplit i with
        | .error message => .failed message entries
        | .ok entry =>
          splitLoop pdf totalPages pagesPerSplit fuel (i + pagesPerSplit) (entries ++ [entry])
    else .finished entries

/-- How a split request ends. -/
inductive SplitOutcome (Page : Type) where
  /-- Status 400 with the given error message; nothing else was done. -/
  | badRequest (error : String)
  /-- Status 500 with the given error message; the entries appended to the
  archive before the failure. -/
  | serverError (message : String) (entries : List (ArchiveEntry Page))
  /-- The archive was finalized with these entries, in order. -/
  | finalized (entries : List (ArchiveEntry Page))
  /-- The partition loop was still running after the allowed number of
  iterations. -/
  | running (i : Int) (entries : List (ArchiveEntry Page))
deriving DecidableEq, Repr

/-- The handler of `POST /pdf/split` (lines 50-84), with the partition loop
allowed at most `fuel` iterations.  `file` is the buffer of `req.file`, `none`
when no file was uploaded.  Response headers are not modelled. -/
def splitHandler [Inhabited Page] (fuel : Nat) (file : Option (Buffer Page)) (body : SplitBody) :
    SplitOutcome Page :=
  match file with
  | none => .badRequest "Upload a PDF"
  | some buffer =>
    match PDFDocument.load buffer with
    | .error message => .serverError message []
    | .ok pdf =>
      let totalPages : Int := pdf.getPageCount
      let pagesPerSplit := resolvePagesPerSplit totalPages body
      match splitLoop pdf totalPages pagesPerSplit fuel 0 [] with
      | .finished entries => .finalized entries
      | .failed message entries => .serverError message entries
      | .running i entries => .running i entries

/-- Number of pages of the document stored in an archive entry. -/
def ArchiveEntry.pageCount (entry : ArchiveEntry Page) : Nat :=
  match entry.data with
  | .pdf doc => doc.pages.length
  | .invalid _ => 0

/-- Pages of the document stored in an archive entry. -/
def ArchiveEntry.pages (entry : ArchiveEntry Page) : List Page :=
  match entry.data with
  | .pdf doc => doc.pages
  | .invalid _ => []

/-! ## Closed form of the partition -/

/-- The archive entry of the stride at 0-based position `k` when the stride
length is `s`: numbered `k + 1`, holding the pages `k * s, ..., k * s + s - 1`
as far as the document has them. -/
def strideEntry (pdf : PDFDocument Page) (s k : Nat) : ArchiveEntry Page :=
  { partNumber := some ((k : ℚ) + 1),
    data := .pdf ⟨(pdf.pages.drop (k * s)).take s, true⟩,
    pagesToCopy := (List.range' (k * s) (min (k * s + s) pdf.pages.length - k * s)).map
      (fun (j : Nat) => (j : Int)) }

/-- The number of strides of length `pagesPerSplit` needed to cover
`totalPages` pages. -/
def partCount (totalPages : Nat) (pagesPerSplit : Int) : Nat :=
  (ceilDiv totalPages pagesPerSplit).toNat

/-! ## Example documents -/

/-- A document of five pages, the pages being numbered. -/
def fivePages : PDFDocument Nat := { pages := [0, 1, 2, 3, 4], stamped := false }

/-- A document of ten pages, the pages being numbered. -/
def tenPages : PDFDocument Nat := { pages := List.range 10, stamped := false }

/-- A document of two pages, the pages being numbered. -/
def twoPages : PDFDocument Nat := { pages := [0, 1], stamped := false }

/-- A document without pages. -/
def noPages : PDFDocument Nat := { pages := [], stamped := false }

/-! # Theorems -/

/-! ## Arithmetic of strides -/

theorem lt_ceilDiv_iff (T k s : Nat) (hs : 0 < s) :
    (k : Int) < ceilDiv T s ↔ k * s < T := by
  unfold ceilDiv
  rw [Int.lt_ceil]
  have hs' : (0 : ℚ) < ((s : Int) : ℚ) := by exact_mod_cast hs
  rw [lt_div_iff₀ hs']
  push_cast
  norm_cast

theorem ceilDiv_nonneg (T s : Nat) : 0 ≤ ceilDiv T s := by
  unfold ceilDiv
  apply Int.ceil_nonneg
  positivity

theorem lt_partCount_iff (T k s : Nat) (hs : 0 < s) :
    k < partCount T s ↔ k * s < T := by
  rw [← lt_ceilDiv_iff T k s hs]
  have := ceilDiv_nonneg T s
  unfold partCount
  omega

/-! ## Engine lemmas -/

theorem pagesToCopy_eq (i e : Nat) :
    pagesToCopy (i : Int) (e : Int) = (List.range' i (e - i)).map (fun (j : Nat) => (j : Int)) := by
  unfold pagesToCopy
  have h : ((e : Int) - (i : Int)).toNat = e - i := by omega
  rw [h, List.range'_eq_map_range, List.map_map]
  apply List.map_congr_left
  intro a _
  simp

theorem copyPages_range' (pdf : PDFDocument Page) :
    ∀ (len a : Nat), a + len ≤ pdf.pages.length →
      copyPages pdf ((List.range' a len).map (fun (j : Nat) => (j : Int))) =
        .ok ((pdf.pages.drop a).take len)
  | 0, a, _ => by simp [copyPages]
  | len + 1, a, h => by
    have ha : a < pdf.pages.length := by omega
    have ih := copyPages_range' pdf len (a + 1) (by omega)
    have hp : pageAt pdf (a : Int) = some pdf.pages[a] := by
      simp [pageAt, List.getElem?_eq_getElem ha]
    rw [List.range'_succ, List.map_cons, copyPages, hp]
    simp only [ih]
    rw [List.drop_eq_getElem_cons ha, List.take_succ_cons]

theorem addPages_eq (doc : PDFDocument Page) (pages : List Page) :
    addPages doc pages = { pages := doc.pages ++ pages, stamped := doc.stamped } := by
  unfold addPages
  induction pages generalizing doc with
  | nil => simp
  | cons p ps ih => simp [List.foldl_cons, ih, PDFDocument.addPage]

/-! ## The partition loop -/

theorem splitPart_stride [Inhabited Page] (pdf : PDFDocument Page) (s k : Nat) (hs : 0 < s)
    (hk : k * s < pdf.pages.length) :
    splitPart pdf (pdf.pages.length : Int) (s : Int) ((k * s : Nat) : Int) =
      .ok (strideEntry pdf s k) := by
  have hend : min (((k * s : Nat) : Int) + (s : Int)) (pdf.pages.length : Int) =
      ((min (k * s + s) pdf.pages.length : Nat) : Int) := by omega
  have hcopy := copyPages_range' pdf (min (k * s + s) pdf.pages.length - k * s) (k * s)
    (by omega)
  have htake : List.take (min (k * s + s) pdf.pages.length - k * s) (List.drop (k * s) pdf.pages)
      = List.take s (List.drop (k * s) pdf.pages) := by
    rw [List.take_eq_take, List.length_drop]
    omega
  have hnum : partNumber ((k * s : Nat) : Int) (s : Int) = some ((k : ℚ) + 1) := by
    have hs0 : (s : Int) ≠ 0 := by omega
    have hsq : (s : ℚ) ≠ 0 := by exact_mod_cast hs0
    simp only [partNumber, hs0, if_false]
    congr 1
    push_cast
    field_simp
  have hne : ¬ min s (pdf.pages.length - k * s) = 0 := by omega
  unfold splitPart
  simp only [hend, pagesToCopy_eq, hcopy, addPages_eq, htake, hnum]
  simp [strideEntry, PDFDocument.create, addEndlessForgeMetadata, PDFDocument.save,
    PDFDocument.getPageCount, List.length_take, List.length_drop, hne]

theorem splitLoop_strides [Inhabited Page] (pdf : PDFDocument Page) (s : Nat) (hs : 0 < s) :
    ∀ (d k fuel : Nat) (acc : List (ArchiveEntry Page)),
      d + k = partCount pdf.pages.length s → d ≤ fuel →
      splitLoop pdf (pdf.pages.length : Int) (s : Int) fuel ((k * s : Nat) : Int) acc =
        .finished (acc ++ (List.range' k d).map (strideEntry pdf s))
  | 0, k, fuel, acc, hd, _ => by
    have hk : ¬ k * s < pdf.pages.length := by
      rw [← lt_partCount_iff _ _ _ hs]; omega
    have hk' : ¬ ((k * s : Nat) : Int) < (pdf.pages.length : Int) := by omega
    unfold splitLoop
    simp only [hk', if_false, List.range'_zero, List.map_nil, List.append_nil]
  | d + 1, k, 0, acc, _, hf => by omega
  | d + 1, k, fuel + 1, acc, hd, hf => by
    have hk : k * s < pdf.pages.length := by
      rw [← lt_partCount_iff _ _ _ hs]; omega
    have hk' : ((k * s : Nat) : Int) < (pdf.pages.length : Int) := by omega
    have hnext : ((k * s : Nat) : Int) + (s : Int) = (((k + 1) * s : Nat) : Int) := by
      push_cast; ring
    have ih := splitLoop_strides pdf s hs d (k + 1) fuel (acc ++ [strideEntry pdf s k])
      (by omega) (by omega)
    unfold splitLoop
    simp only [hk', if_true, splitPart_stride pdf s k hs hk, hnext, ih]
    simp [List.range'_succ]

theorem partCount_le (T s : Nat) (hs : 0 < s) : partCount T s ≤ T := by
  by_contra h
  have h1 : T * s < T := (lt_partCount_iff T T s hs).1 (by omega)
  have h2 : T ≤ T * s := Nat.le_mul_of_pos_right T hs
  omega

theorem le_partCount_mul (T s : Nat) (hs : 0 < s) : T ≤ partCount T s * s := by
  by_contra h
  have h1 := (lt_partCount_iff T (partCount T s) s hs).2 (by omega)
  omega

/-- With a stride of at least one page the handler finalizes the archive, and
its entries are the strides in order. -/
theorem splitHandler_strides [Inhabited Page] (pdf : PDFDocument Page) (body : SplitBody) (fuel : Nat)
    (hS : 1 ≤ resolvePagesPerSplit pdf.getPageCount body)
    (hfuel : pdf.getPageCount ≤ fuel) :
    splitHandler fuel (some (.pdf pdf)) body =
      .finalized ((List.range (partCount pdf.getPageCount
          (resolvePagesPerSplit pdf.getPageCount body))).map
        (strideEntry pdf (resolvePagesPerSplit pdf.getPageCount body).toNat)) := by
  obtain ⟨s, hs⟩ : ∃ s : Nat, resolvePagesPerSplit pdf.getPageCount body = (s : Int) :=
    ⟨(resolvePagesPerSplit pdf.getPageCount body).toNat, by omega⟩
  have hpos : 0 < s := by omega
  have hloop := splitLoop_strides pdf s hpos (partCount pdf.pages.length s) 0 fuel []
    (by omega) (le_trans (partCount_le _ _ hpos) hfuel)
  simp only [Nat.zero_mul, Nat.cast_zero, List.nil_append] at hloop
  simp only [splitHandler, PDFDocument.save, PDFDocument.load, hs, Int.toNat_ofNat]
  simp only [PDFDocument.getPageCount] at hloop ⊢
  rw [hloop, List.range_eq_range']

theorem getElem?_strides (pdf : PDFDocument Page) (s n k : Nat) (e : ArchiveEntry Page) :
    ((List.range n).map (strideEntry pdf s))[k]? = some e ↔ k < n ∧ strideEntry pdf s k = e := by
  rw [List.getElem?_map]
  by_cases hk : k < n
  · simp [List.getElem?_range hk, hk]
  · simp [List.getElem?_eq_none (by simpa using hk : (List.range n).length ≤ k), hk]

theorem strideEntry_pageCount (pdf : PDFDocument Page) (s k : Nat) :
    (strideEntry pdf s k).pageCount = min s (pdf.pages.length - k * s) := by
  simp [strideEntry, ArchiveEntry.pageCount, List.length_take, List.length_drop]

/-- C1: for a document of `T` pages and a resolved `pagesPerSplit` of `S ≥ 1`,
the split handler finalizes the archive with exactly `ceil(T/S)` parts; every
part but the last has exactly `S` pages and the last has
`T - S * (ceil(T/S) - 1)`; no page gives no part, and `S > T ≥ 1` gives one
part holding all pages. -/
theorem split_part_count_and_sizes [Inhabited Page] (pdf : PDFDocument Page) (body : SplitBody) (fuel T : Nat)
    (S : Int) (hT : pdf.getPageCount = T) (hS : resolvePagesPerSplit T body = S)
    (hS1 : 1 ≤ S) (hfuel : T ≤ fuel) :
    ∃ entries : List (ArchiveEntry Page),
      splitHandler fuel (some (.pdf pdf)) body = .finalized entries ∧
      (entries.length : Int) = ⌈(T : ℚ) / (S : ℚ)⌉ ∧
      (∀ k e, entries[k]? = some e → k + 1 < entries.length → (e.pageCount : Int) = S) ∧
      (∀ e, entries.getLast? = some e →
        (e.pageCount : Int) = (T : Int) - S * (⌈(T : ℚ) / (S : ℚ)⌉ - 1)) ∧
      (T = 0 → entries = []) ∧
      (1 ≤ T → (T : Int) < S → ∃ e, entries = [e] ∧ e.pages = pdf.pages) := by
  subst hT
  obtain ⟨s, rfl⟩ : ∃ s : Nat, S = (s : Int) := ⟨S.toNat, by omega⟩
  have hpos : 0 < s := by omega
  have hrun := splitHandler_strides pdf body fuel (by rw [hS]; exact hS1) hfuel
  rw [hS, Int.toNat_ofNat] at hrun
  have hlen : pdf.pages.length = pdf.getPageCount := rfl
  have hceil : ⌈((pdf.getPageCount : Nat) : ℚ) / ((s : Int) : ℚ)⌉ =
      (partCount pdf.getPageCount s : Int) := by
    have h0 := ceilDiv_nonneg pdf.getPageCount s
    have : ceilDiv pdf.getPageCount s = ⌈((pdf.getPageCount : Nat) : ℚ) / ((s : Int) : ℚ)⌉ := by
      simp [ceilDiv]
    rw [← this]
    unfold partCount
    omega
  have hcover := le_partCount_mul pdf.getPageCount s hpos
  refine ⟨_, hrun, ?_, ?_, ?_, ?_, ?_⟩
  · rw [hceil]; simp
  · intro k e he hk
    obtain ⟨_, rfl⟩ := (getElem?_strides pdf s _ k e).1 he
    simp only [List.length_map, List.length_range] at hk
    have h1 := (lt_partCount_iff pdf.getPageCount (k + 1) s hpos).1 hk
    rw [Nat.succ_mul] at h1
    rw [strideEntry_pageCount, hlen]
    omega
  · intro e he
    rw [hceil]
    generalize hn : partCount pdf.getPageCount s = n at he hcover ⊢
    cases n with
    | zero => simp at he
    | succ m =>
      rw [List.getLast?_eq_getElem?] at he
      simp only [List.length_map, List.length_range, Nat.add_sub_cancel] at he
      obtain ⟨_, rfl⟩ := (getElem?_strides pdf s _ m e).1 he
      have h1 := (lt_partCount_iff pdf.getPageCount m s hpos).1 (by omega)
      rw [Nat.succ_mul] at hcover
      rw [strideEntry_pageCount, hlen]
      have h2 : (s : Int) * (((m + 1 : Nat) : Int) - 1) = ((m * s : Nat) : Int) := by
        push_cast; ring
      rw [h2]
      omega
  · intro h0
    have : partCount pdf.getPageCount s = 0 := by
      have := partCount_le pdf.getPageCount s hpos
      omega
    simp [this]
  · intro h1 hlt
    have hn1 : partCount pdf.getPageCount s = 1 := by
      have ha := (lt_partCount_iff pdf.getPageCount 0 s hpos).2 (by omega)
      have hb : ¬ 1 < partCount pdf.getPageCount s := by
        rw [lt_partCount_iff _ _ _ hpos]; omega
      omega
    refine ⟨strideEntry pdf s 0, by rw [hn1]; rfl, ?_⟩
    simp only [strideEntry, ArchiveEntry.pages, Nat.zero_mul, List.drop_zero]
    apply List.take_of_length_le
    rw [hlen]; omega


theorem strideEntry_copyPages (pdf : PDFDocument Page) (s k : Nat)
    (hk : k * s ≤ pdf.pages.length) :
    copyPages pdf (strideEntry pdf s k).pagesToCopy = .ok (strideEntry pdf s k).pages := by
  have hcopy := copyPages_range' pdf (min (k * s + s) pdf.pages.length - k * s) (k * s)
    (by omega)
  have htake : List.take (min (k * s + s) pdf.pages.length - k * s) (List.drop (k * s) pdf.pages)
      = List.take s (List.drop (k * s) pdf.pages) := by
    rw [List.take_eq_take, List.length_drop]
    omega
  simp only [strideEntry, ArchiveEntry.pages, hcopy, htake]

theorem flatten_stride_pages (l : List Page) (s : Nat) :
    ∀ n : Nat, ((List.range n).map (fun k => (l.drop (k * s)).take s)).flatten = l.take (n * s)
  | 0 => by simp
  | n + 1 => by
    rw [List.range_succ, List.map_append, List.flatten_append, flatten_stride_pages l s n,
      Nat.succ_mul, List.take_add]
    simp

theorem flatten_stride_indices (T s : Nat) :
    ∀ n : Nat, ((List.range n).map
        (fun k => List.range' (k * s) (min (k * s + s) T - k * s))).flatten =
      List.range' 0 (min (n * s) T)
  | 0 => by simp
  | n + 1 => by
    rw [List.range_succ, List.map_append, List.flatten_append, flatten_stride_indices T s n,
      Nat.succ_mul]
    simp only [List.map_cons, List.map_nil, List.flatten_cons, List.flatten_nil,
      List.append_nil]
    by_cases h : n * s ≤ T
    · have h1 : min (n * s) T = n * s := by omega
      have h2 : n * s = 0 + n * s := by omega
      rw [h1]
      nth_rewrite 2 [h2]
      rw [List.range'_append_1]
      congr 1
      omega
    · have h1 : min (n * s + s) T - n * s = 0 := by omega
      have h2 : min (n * s) T = min (n * s + s) T := by omega
      rw [h1, h2]
      simp

/-- C2: for a document of `T` pages and a resolved `pagesPerSplit` of `S ≥ 1`,
the part at position `k` (counted from zero, so the `(k+1)`-th part) is copied
from exactly the page indices `k*S, ..., min((k+1)*S, T) - 1` in increasing
order and holds exactly those pages; the index lists of all parts, joined in
part order, are `0, 1, ..., T-1`, and the pages of all parts, joined in part
order, are the pages of the document. -/
theorem split_part_indices [Inhabited Page] (pdf : PDFDocument Page) (body : SplitBody) (fuel T : Nat)
    (S : Int) (hT : pdf.getPageCount = T) (hS : resolvePagesPerSplit T body = S)
    (hS1 : 1 ≤ S) (hfuel : T ≤ fuel) :
    ∃ entries : List (ArchiveEntry Page),
      splitHandler fuel (some (.pdf pdf)) body = .finalized entries ∧
      (∀ (k : Nat) (e : ArchiveEntry Page), entries[k]? = some e →
        e.pagesToCopy.Pairwise (fun a b => a < b) ∧
        (∀ x : Int, x ∈ e.pagesToCopy ↔
          (k : Int) * S ≤ x ∧ x < min (((k : Int) + 1) * S) (T : Int)) ∧
        copyPages pdf e.pagesToCopy = .ok e.pages) ∧
      (entries.map ArchiveEntry.pagesToCopy).flatten =
        (List.range T).map (fun (j : Nat) => (j : Int)) ∧
      (entries.map ArchiveEntry.pages).flatten = pdf.pages := by
  subst hT
  obtain ⟨s, rfl⟩ : ∃ s : Nat, S = (s : Int) := ⟨S.toNat, by omega⟩
  have hpos : 0 < s := by omega
  have hrun := splitHandler_strides pdf body fuel (by rw [hS]; exact hS1) hfuel
  rw [hS, Int.toNat_ofNat] at hrun
  have hlen : pdf.pages.length = pdf.getPageCount := rfl
  have hcover := le_partCount_mul pdf.getPageCount s hpos
  refine ⟨_, hrun, ?_, ?_, ?_⟩
  · intro k e he
    obtain ⟨hk, rfl⟩ := (getElem?_strides pdf s _ k e).1 he
    have h1 := (lt_partCount_iff pdf.getPageCount k s hpos).1 hk
    refine ⟨?_, ?_, strideEntry_copyPages pdf s k (by rw [hlen]; omega)⟩
    · simp only [strideEntry]
      rw [List.pairwise_map]
      exact (List.pairwise_lt_range' _ _).imp (fun h => by exact_mod_cast h)
    · intro x
      have hks : (k : Int) * (s : Int) = ((k * s : Nat) : Int) := by push_cast; ring
      have hks1 : ((k : Int) + 1) * (s : Int) = ((k * s : Nat) : Int) + (s : Int) := by
        push_cast; ring
      rw [hks, hks1]
      simp only [strideEntry, List.mem_map, List.mem_range'_1, hlen]
      constructor
      · rintro ⟨a, ha, rfl⟩
        omega
      · intro hx
        exact ⟨x.toNat, by omega, by omega⟩
  · have h := flatten_stride_indices pdf.getPageCount s (partCount pdf.getPageCount s)
    have hmin : min (partCount pdf.getPageCount s * s) pdf.getPageCount = pdf.getPageCount := by
      omega
    rw [hmin] at h
    rw [List.range_eq_range' (n := pdf.getPageCount), ← h, List.map_map, List.map_flatten,
      List.map_map]
    rfl
  · have h := flatten_stride_pages pdf.pages s (partCount pdf.getPageCount s)
    rw [List.take_of_length_le (by rw [hlen]; exact hcover)] at h
    rw [List.map_map]
    exact h


/-! ## Resolution of the request parameters -/

theorem ceilDiv_eq (a b c : Int) (hb : 0 < b) (h1 : (c - 1) * b < a) (h2 : a ≤ c * b) :
    ceilDiv a b = c := by
  have hb' : (0 : ℚ) < (b : ℚ) := by exact_mod_cast hb
  unfold ceilDiv
  rw [Int.ceil_eq_iff]
  constructor
  · rw [lt_div_iff₀ hb']
    exact_mod_cast h1
  · rw [div_le_iff₀ hb']
    exact_mod_cast h2

theorem resolve_parts (T P : Int) (pagesPerSplit : Option Int) (hP : 0 < P) :
    resolvePagesPerSplit T ⟨some P, pagesPerSplit⟩ = ceilDiv T P := by
  have hP0 : P ≠ 0 := by omega
  simp [resolvePagesPerSplit, parsedOrZero, hP0, hP]

theorem le_ceilDiv_mul (T P : Int) (hP : 0 < P) : T ≤ ceilDiv T P * P := by
  have hP' : (0 : ℚ) < (P : ℚ) := by exact_mod_cast hP
  have h := Int.le_ceil ((T : ℚ) / (P : ℚ))
  rw [div_le_iff₀ hP'] at h
  unfold ceilDiv
  exact_mod_cast h

theorem splitLoop_exit [Inhabited Page] (pdf : PDFDocument Page) (T S i : Int) (fuel : Nat)
    (acc : List (ArchiveEntry Page)) (h : ¬ i < T) :
    splitLoop pdf T S fuel i acc = .finished acc := by
  unfold splitLoop
  simp only [h, if_false]

/-- C3: when `parts` parses to an integer `P > 0`, the resolved `pagesPerSplit`
is `ceil(totalPages / P)` whatever was supplied for `pagesPerSplit`; and a
document of 10 pages with `parts = 3`, `pagesPerSplit = 1` resolves to 4 pages
per part and is split into exactly 3 parts of 4, 4 and 2 pages. -/
theorem parts_takes_precedence :
    (∀ (T : Nat) (P : Int) (pagesPerSplit : Option Int), 0 < P →
      resolvePagesPerSplit T ⟨some P, pagesPerSplit⟩ = ⌈(T : ℚ) / (P : ℚ)⌉) ∧
    (∀ (Page : Type) [Inhabited Page] (pdf : PDFDocument Page) (fuel : Nat),
      pdf.getPageCount = 10 → 10 ≤ fuel →
      resolvePagesPerSplit 10 ⟨some 3, some 1⟩ = 4 ∧
      ∃ entries : List (ArchiveEntry Page),
        splitHandler fuel (some (.pdf pdf)) ⟨some 3, some 1⟩ = .finalized entries ∧
        entries.map ArchiveEntry.pageCount = [4, 4, 2]) := by
  constructor
  · intro T P pagesPerSplit hP
    rw [resolve_parts _ _ _ hP]
    simp [ceilDiv]
  · intro Page _ pdf fuel hT hfuel
    have hres : resolvePagesPerSplit 10 ⟨some 3, some 1⟩ = 4 := by
      rw [resolve_parts _ _ _ (by decide)]
      exact ceilDiv_eq 10 3 4 (by decide) (by decide) (by decide)
    have hres' : resolvePagesPerSplit pdf.getPageCount ⟨some 3, some 1⟩ = 4 := by
      rw [hT]; exact hres
    have hcount : partCount 10 4 = 3 := by
      unfold partCount
      rw [ceilDiv_eq ((10 : Nat) : Int) 4 3 (by decide) (by decide) (by decide)]
      rfl
    have hrun := splitHandler_strides pdf ⟨some 3, some 1⟩ fuel (by rw [hres']; decide)
      (by omega)
    rw [hres', hT, hcount] at hrun
    have hlen : pdf.pages.length = 10 := hT
    refine ⟨hres, _, hrun, ?_⟩
    simp [List.range_succ, strideEntry_pageCount, hlen]

/-- C8: for a document of `T ≥ 1` pages and `parts` parsing to `P > T`, the
split handler creates exactly `T` parts, each of exactly one page. -/
theorem split_more_parts_than_pages [Inhabited Page] (pdf : PDFDocument Page) (fuel T : Nat) (P : Int)
    (pagesPerSplit : Option Int) (hT : pdf.getPageCount = T) (hT1 : 1 ≤ T)
    (hP : (T : Int) < P) (hfuel : T ≤ fuel) :
    ∃ entries : List (ArchiveEntry Page),
      splitHandler fuel (some (.pdf pdf)) ⟨some P, pagesPerSplit⟩ = .finalized entries ∧
      entries.length = T ∧
      ∀ e ∈ entries, e.pageCount = 1 := by
  subst hT
  have hres : resolvePagesPerSplit pdf.getPageCount ⟨some P, pagesPerSplit⟩ = ((1 : Nat) : Int) := by
    rw [resolve_parts _ _ _ (by omega)]
    exact ceilDiv_eq _ _ 1 (by omega) (by omega) (by omega)
  have hcount : partCount pdf.getPageCount ((1 : Nat) : Int) = pdf.getPageCount := by
    unfold partCount
    rw [ceilDiv_eq _ _ (pdf.getPageCount : Int) (by decide) (by omega) (by omega)]
    rfl
  have hrun := splitHandler_strides pdf ⟨some P, pagesPerSplit⟩ fuel (by rw [hres]; decide)
    hfuel
  rw [hres, hcount, Int.toNat_ofNat] at hrun
  refine ⟨_, hrun, by simp, ?_⟩
  intro e he
  simp only [List.mem_map, List.mem_range] at he
  obtain ⟨k, hk, rfl⟩ := he
  have hlen : pdf.pages.length = pdf.getPageCount := rfl
  rw [strideEntry_pageCount, hlen]
  omega

/-- C10: when `parts` parses to an integer `P > 0`, the split handler
finalizes the archive with at most `P` entries, whatever the page count. -/
theorem split_at_most_parts [Inhabited Page] (pdf : PDFDocument Page) (fuel : Nat) (P : Int)
    (pagesPerSplit : Option Int) (hP : 0 < P) (hfuel : pdf.getPageCount ≤ fuel) :
    ∃ entries : List (ArchiveEntry Page),
      splitHandler fuel (some (.pdf pdf)) ⟨some P, pagesPerSplit⟩ = .finalized entries ∧
      (entries.length : Int) ≤ P := by
  have hres := resolve_parts pdf.getPageCount P pagesPerSplit hP
  by_cases h0 : pdf.getPageCount = 0
  · refine ⟨[], ?_, by simp; omega⟩
    simp only [splitHandler, PDFDocument.save, PDFDocument.load]
    rw [splitLoop_exit _ _ _ _ _ _ (by omega)]
  · have hmul := le_ceilDiv_mul pdf.getPageCount P hP
    have hS1 : 1 ≤ ceilDiv pdf.getPageCount P := by
      by_contra hlt
      have : ceilDiv pdf.getPageCount P * P ≤ 0 :=
        Int.mul_nonpos_of_nonpos_of_nonneg (by omega) (by omega)
      omega
    obtain ⟨s, hs⟩ : ∃ s : Nat, ceilDiv pdf.getPageCount P = (s : Int) :=
      ⟨(ceilDiv pdf.getPageCount P).toNat, by omega⟩
    obtain ⟨p, rfl⟩ : ∃ p : Nat, P = (p : Int) := ⟨P.toNat, by omega⟩
    have hrun := splitHandler_strides pdf ⟨some (p : Int), pagesPerSplit⟩ fuel
      (by rw [hres]; exact hS1) hfuel
    refine ⟨_, hrun, ?_⟩
    rw [hres, hs]
    simp only [List.length_map, List.length_range, Nat.cast_le]
    by_contra hlt
    have h1 := (lt_partCount_iff pdf.getPageCount p s (by omega)).1 (by omega)
    rw [hs] at hmul
    have h2 : pdf.getPageCount ≤ s * p := by exact_mod_cast hmul
    rw [Nat.mul_comm] at h2
    omega


/-! ## The merge handler -/

theorem copyPages_all (pdf : PDFDocument Page) :
    copyPages pdf pdf.getPageIndices = .ok pdf.pages := by
  have h := copyPages_range' pdf pdf.pages.length 0 (by omega)
  rw [List.drop_zero, List.take_length, ← List.range_eq_range'] at h
  exact h

theorem mergeLoop_docs : ∀ (docs : List (PDFDocument Page)) (mergedPdf : PDFDocument Page)
    (calls : List EngineCall),
    ∃ calls', mergeLoop (docs.map Buffer.pdf) mergedPdf calls =
      (calls', .ok { pages := mergedPdf.pages ++ (docs.map PDFDocument.pages).flatten,
                     stamped := mergedPdf.stamped })
  | [], mergedPdf, calls => ⟨calls, by simp [mergeLoop]⟩
  | doc :: rest, mergedPdf, calls => by
    obtain ⟨calls', h⟩ := mergeLoop_docs rest (addPages mergedPdf doc.pages)
      (calls ++ [.load, .copyPages] ++ doc.pages.map (fun _ => EngineCall.addPage))
    refine ⟨calls', ?_⟩
    simp only [List.map_cons, mergeLoop, PDFDocument.save, PDFDocument.load, copyPages_all]
    rw [h]
    simp [addPages_eq]

/-- The response of a successful merge carrying the document `out`. -/
theorem mergeHandler_docs [Inhabited Page] (docs : List (PDFDocument Page)) (h : 2 ≤ docs.length) :
    (mergeHandler (some (docs.map Buffer.pdf))).responses =
      [⟨200, [("Content-Type", "application/pdf"),
          ("Content-Disposition", "attachment; filename=\"merged.pdf\"")],
        .bytes (PDFDocument.save
          { pages := (docs.map PDFDocument.pages).flatten, stamped := true })⟩] := by
  obtain ⟨calls', hloop⟩ := mergeLoop_docs docs PDFDocument.create [.create]
  have hlen : ¬ (docs.map Buffer.pdf).length < 2 := by simp; omega
  simp only [mergeHandler, hlen, if_false, hloop]
  simp [PDFDocument.create, addEndlessForgeMetadata]

/-- C4 (as stated, refuted): two uploads without pages have page counts summing
to 0, yet the merge handler answers with a document of one page, the blank
page added when a document without pages is saved. -/
theorem merge_pageless_uploads_gain_a_page :
    ([noPages, noPages].map PDFDocument.getPageCount).sum = 0 ∧
    ∃ out : PDFDocument Nat,
      (mergeHandler (some [Buffer.pdf noPages, Buffer.pdf noPages])).responses =
        [⟨200, [("Content-Type", "application/pdf"),
            ("Content-Disposition", "attachment; filename=\"merged.pdf\"")],
          .bytes (.pdf out)⟩] ∧
      out.getPageCount = 1 ∧
      out.pages ≠ ([noPages, noPages].map PDFDocument.pages).flatten :=
  ⟨rfl, ⟨{ pages := [default], stamped := true }, rfl, rfl, by decide⟩⟩

/-- C4 (amended): for `N ≥ 2` uploaded documents of which at least one has a
page, the merge handler answers with one response, status 200, whose bytes
decode to a document with exactly the pages of the uploads, in upload order and
each upload in its own page order; its page count is the sum of their page
counts. -/
theorem merge_concatenates_pages [Inhabited Page] (docs : List (PDFDocument Page))
    (h : 2 ≤ docs.length) (hpages : 1 ≤ (docs.map PDFDocument.getPageCount).sum) :
    ∃ out : PDFDocument Page,
      (mergeHandler (some (docs.map Buffer.pdf))).responses =
        [⟨200, [("Content-Type", "application/pdf"),
            ("Content-Disposition", "attachment; filename=\"merged.pdf\"")],
          .bytes (.pdf out)⟩] ∧
      out.pages = (docs.map PDFDocument.pages).flatten ∧
      out.getPageCount = (docs.map PDFDocument.getPageCount).sum := by
  have hsum : (docs.map PDFDocument.getPageCount).sum =
      ((docs.map PDFDocument.pages).flatten).length := by
    simp only [List.length_flatten, List.map_map]
    rfl
  have hne : ¬ ((docs.map PDFDocument.pages).flatten).length = 0 := by omega
  have hmerge := mergeHandler_docs docs h
  simp only [PDFDocument.save, PDFDocument.getPageCount, hne, if_false] at hmerge
  exact ⟨_, hmerge, rfl, hsum.symm⟩

/-- C7: when the uploaded file list is absent or has fewer than two entries,
the merge handler makes no call to the PDF engine or the metadata stamper and
sends exactly one response, status 400 with the error `Upload at least 2 PDFs`. -/
theorem merge_rejects_fewer_than_two [Inhabited Page] (files : Option (List (Buffer Page)))
    (h : files = none ∨ ∃ l, files = some l ∧ l.length < 2) :
    mergeHandler files =
      { calls := [], responses := [⟨400, [], .json "Upload at least 2 PDFs"⟩] } := by
  rcases h with rfl | ⟨l, rfl, hl⟩
  · rfl
  · simp only [mergeHandler, hl, if_true]


/-! ## Split followed by merge -/

/-- C5 (as stated, refuted): a document of one page, split with the default
parameters, gives a single part; the merge handler, given that part, answers
400 `Upload at least 2 PDFs` and produces no merged document. -/
theorem split_then_merge_single_part_rejected :
    ∃ entries : List (ArchiveEntry Unit),
      splitHandler 1 (some (.pdf ⟨[()], false⟩)) ⟨none, none⟩ =
        .finalized entries ∧
      entries.length = 1 ∧
      mergeHandler (some (entries.map ArchiveEntry.data)) =
        { calls := [], responses := [⟨400, [], .json "Upload at least 2 PDFs"⟩] } := by
  have hres : resolvePagesPerSplit (PDFDocument.getPageCount (⟨[()], false⟩ : PDFDocument Unit))
      ⟨none, none⟩ = 1 := by decide
  have hcount : partCount 1 1 = 1 := by
    unfold partCount
    rw [ceilDiv_eq ((1 : Nat) : Int) 1 1 (by decide) (by decide) (by decide)]
    rfl
  have hrun := splitHandler_strides (⟨[()], false⟩ : PDFDocument Unit) ⟨none, none⟩ 1
    (by rw [hres]) (by decide)
  rw [hres] at hrun
  refine ⟨_, hrun, ?_, ?_⟩
  · simp [PDFDocument.getPageCount]; exact hcount
  · have h1 : partCount (PDFDocument.getPageCount (⟨[()], false⟩ : PDFDocument Unit)) 1 = 1 :=
      hcount
    rw [h1]
    rfl

/-- C5 (amended): when the resolved `pagesPerSplit` is `S` with `1 ≤ S < T`,
the split handler finalizes the archive with at least two parts, and the merge
handler, given the parts in part order, answers with a document whose page
sequence is that of the original document. -/
theorem split_then_merge_restores_pages [Inhabited Page] (pdf : PDFDocument Page) (body : SplitBody)
    (fuel T : Nat) (S : Int) (hT : pdf.getPageCount = T)
    (hS : resolvePagesPerSplit T body = S) (hS1 : 1 ≤ S) (hST : S < T) (hfuel : T ≤ fuel) :
    ∃ (entries : List (ArchiveEntry Page)) (out : PDFDocument Page),
      splitHandler fuel (some (.pdf pdf)) body = .finalized entries ∧
      2 ≤ entries.length ∧
      (mergeHandler (some (entries.map ArchiveEntry.data))).responses =
        [⟨200, [("Content-Type", "application/pdf"),
            ("Content-Disposition", "attachment; filename=\"merged.pdf\"")],
          .bytes out.save⟩] ∧
      out.pages = pdf.pages := by
  subst hT
  obtain ⟨s, rfl⟩ : ∃ s : Nat, S = (s : Int) := ⟨S.toNat, by omega⟩
  have hpos : 0 < s := by omega
  have hrun := splitHandler_strides pdf body fuel (by rw [hS]; exact hS1) hfuel
  rw [hS, Int.toNat_ofNat] at hrun
  have hlen : pdf.pages.length = pdf.getPageCount := rfl
  have hcover := le_partCount_mul pdf.getPageCount s hpos
  have htwo : 2 ≤ partCount pdf.getPageCount s :=
    (lt_partCount_iff pdf.getPageCount 1 s hpos).2 (by omega)
  have hdata : ((List.range (partCount pdf.getPageCount s)).map (strideEntry pdf s)).map
      ArchiveEntry.data =
      ((List.range (partCount pdf.getPageCount s)).map
        (fun k => ({ pages := (pdf.pages.drop (k * s)).take s, stamped := true } :
          PDFDocument Page))).map Buffer.pdf := by
    rw [List.map_map, List.map_map]
    rfl
  have hmerge := mergeHandler_docs ((List.range (partCount pdf.getPageCount s)).map
    (fun k => ({ pages := (pdf.pages.drop (k * s)).take s, stamped := true } :
      PDFDocument Page))) (by simpa using htwo)
  have hpages : (((List.range (partCount pdf.getPageCount s)).map
      (fun k => ({ pages := (pdf.pages.drop (k * s)).take s, stamped := true } :
        PDFDocument Page))).map PDFDocument.pages).flatten = pdf.pages := by
    have h := flatten_stride_pages pdf.pages s (partCount pdf.getPageCount s)
    rw [List.take_of_length_le (by rw [hlen]; exact hcover)] at h
    rw [List.map_map]
    exact h
  rw [hpages] at hmerge
  refine ⟨_, { pages := pdf.pages, stamped := true }, hrun, by simpa using htwo, ?_, rfl⟩
  rw [hdata]
  exact hmerge

/-! ## Non-positive strides -/

theorem splitLoop_zero_stride [Inhabited Page] (pdf : PDFDocument Page) (T : Int) (hT : 0 < T) :
    ∀ (fuel : Nat) (acc : List (ArchiveEntry Page)),
      ∃ entries, splitLoop pdf T 0 fuel 0 acc = .running 0 entries ∧
        entries.length = acc.length + fuel
  | 0, acc => ⟨acc, by unfold splitLoop; simp [hT], by simp⟩
  | fuel + 1, acc => by
    have hpart : splitPart pdf T 0 0 =
        .ok { partNumber := none, data := .pdf ⟨[default], true⟩, pagesToCopy := [] } := by
      have hmin : min (0 : Int) T = 0 := by omega
      simp [splitPart, hmin, pagesToCopy, copyPages, addPages, partNumber,
        PDFDocument.create, addEndlessForgeMetadata, PDFDocument.save,
        PDFDocument.getPageCount, PDFDocument.addPage]
    obtain ⟨entries, h, hlen⟩ := splitLoop_zero_stride pdf T hT fuel
      (acc ++ [{ partNumber := none, data := .pdf ⟨[default], true⟩, pagesToCopy := [] }])
    refine ⟨entries, ?_, by rw [hlen]; simp; omega⟩
    unfold splitLoop
    simp only [hT, if_true, hpart, Int.zero_add]
    exact h

/-- C6 (failing input): for a one-page document with `parts = -1` and no
`pagesPerSplit`, the resolved stride is 0 and the partition loop is still
running, at `i = 0`, after any number of iterations: it never exits. -/
theorem split_negative_parts_never_exits :
    resolvePagesPerSplit 1 ⟨some (-1), none⟩ = 0 ∧
    ∀ fuel : Nat, ∃ entries : List (ArchiveEntry Unit),
      splitHandler fuel (some (.pdf ⟨[()], false⟩)) ⟨some (-1), none⟩ =
        .running 0 entries ∧
      entries.length = fuel := by
  have hres : resolvePagesPerSplit 1 ⟨some (-1), none⟩ = 0 := by decide
  refine ⟨hres, ?_⟩
  intro fuel
  obtain ⟨entries, h, hlen⟩ := splitLoop_zero_stride (⟨[()], false⟩ : PDFDocument Unit) 1
    (by decide) fuel []
  refine ⟨entries, ?_, by simpa using hlen⟩
  simp only [splitHandler, PDFDocument.save, PDFDocument.load]
  have hres' : resolvePagesPerSplit
      ((PDFDocument.getPageCount (⟨[()], false⟩ : PDFDocument Unit) : Nat) : Int)
      ⟨some (-1), none⟩ = 0 := hres
  rw [hres']
  have hT : ((PDFDocument.getPageCount (⟨[()], false⟩ : PDFDocument Unit) : Nat) : Int) = 1 := rfl
  rw [hT, h]


/-! ## Entry names -/

theorem digitChar_value : ∀ m : Nat, m < 10 → (Nat.digitChar m).toNat - 48 = m := by
  decide

theorem toDigitsCore_value : ∀ (fuel n : Nat) (ds : List Char), n < fuel →
    (Nat.toDigitsCore 10 fuel n ds).foldl (fun acc c => 10 * acc + (c.toNat - 48)) 0 =
      ds.foldl (fun acc c => 10 * acc + (c.toNat - 48)) n
  | 0, n, ds, h => by omega
  | fuel + 1, n, ds, h => by
    have hd := digitChar_value (n % 10) (Nat.mod_lt _ (by decide))
    by_cases h0 : n / 10 = 0
    · simp only [Nat.toDigitsCore, h0, if_true, List.foldl_cons, hd]
      congr 1
      omega
    · have ih := toDigitsCore_value fuel (n / 10) (Nat.digitChar (n % 10) :: ds) (by omega)
      simp only [Nat.toDigitsCore, h0, if_false, ih, List.foldl_cons, hd]
      congr 1
      omega

theorem toString_nat_injective (a b : Nat) (h : toString a = toString b) : a = b := by
  have h1 : Nat.toDigits 10 a = Nat.toDigits 10 b := by
    have := congrArg String.data h
    exact this
  have ha := toDigitsCore_value (a + 1) a [] (by omega)
  have hb := toDigitsCore_value (b + 1) b [] (by omega)
  unfold Nat.toDigits at h1
  rw [h1, hb] at ha
  simpa using ha.symm

theorem partName_injective (a b : Nat)
    (h : "part_" ++ toString a ++ ".pdf" = "part_" ++ toString b ++ ".pdf") : a = b := by
  apply toString_nat_injective
  have h1 := congrArg String.data h
  simp only [String.data_append, List.append_cancel_right_eq, List.append_cancel_left_eq] at h1
  exact String.ext h1

theorem strideEntry_name (pdf : PDFDocument Page) (s k : Nat) :
    (strideEntry pdf s k).name = some ("part_" ++ toString (k + 1) ++ ".pdf") := by
  have hq : (k : ℚ) + 1 = ((k + 1 : Nat) : ℚ) := by push_cast; rfl
  simp only [ArchiveEntry.name, strideEntry, hq, Rat.den_natCast, Rat.num_natCast]
  simp
  omega

/-- C9: for a document of `T` pages and a resolved `pagesPerSplit` of `S ≥ 1`,
the archive has `ceil(T/S)` entries; the entry at position `k` (counted from
zero) is the stride starting at page `i = k*S`, the value `i / S + 1` computed
for it is the whole number `k + 1`, and the entry is named `part_<k+1>.pdf`;
the names are pairwise distinct. -/
theorem split_entry_names [Inhabited Page] (pdf : PDFDocument Page) (body : SplitBody) (fuel T : Nat)
    (S : Int) (hT : pdf.getPageCount = T) (hS : resolvePagesPerSplit T body = S)
    (hS1 : 1 ≤ S) (hfuel : T ≤ fuel) :
    ∃ entries : List (ArchiveEntry Page),
      splitHandler fuel (some (.pdf pdf)) body = .finalized entries ∧
      (entries.length : Int) = ⌈(T : ℚ) / (S : ℚ)⌉ ∧
      (∀ (k : Nat) (e : ArchiveEntry Page), entries[k]? = some e →
        e.pagesToCopy.head? = some ((k : Int) * S) ∧
        partNumber ((k : Int) * S) S = some (((k + 1 : Nat) : ℚ)) ∧
        e.partNumber = some (((k + 1 : Nat) : ℚ)) ∧
        e.name = some ("part_" ++ toString (k + 1) ++ ".pdf")) ∧
      (entries.map ArchiveEntry.name).Nodup := by
  subst hT
  obtain ⟨s, rfl⟩ : ∃ s : Nat, S = (s : Int) := ⟨S.toNat, by omega⟩
  have hpos : 0 < s := by omega
  have hrun := splitHandler_strides pdf body fuel (by rw [hS]; exact hS1) hfuel
  rw [hS, Int.toNat_ofNat] at hrun
  have hlen : pdf.pages.length = pdf.getPageCount := rfl
  have hceil : ⌈((pdf.getPageCount : Nat) : ℚ) / ((s : Int) : ℚ)⌉ =
      (partCount pdf.getPageCount s : Int) := by
    have h0 := ceilDiv_nonneg pdf.getPageCount s
    have : ceilDiv pdf.getPageCount s = ⌈((pdf.getPageCount : Nat) : ℚ) / ((s : Int) : ℚ)⌉ := by
      simp [ceilDiv]
    rw [← this]
    unfold partCount
    omega
  refine ⟨_, hrun, ?_, ?_, ?_⟩
  · rw [hceil]; simp
  · intro k e he
    obtain ⟨hk, rfl⟩ := (getElem?_strides pdf s _ k e).1 he
    have h1 := (lt_partCount_iff pdf.getPageCount k s hpos).1 hk
    have hs0 : (s : Int) ≠ 0 := by omega
    have hsq : (s : ℚ) ≠ 0 := by exact_mod_cast hs0
    refine ⟨?_, ?_, ?_, strideEntry_name pdf s k⟩
    · obtain ⟨d, hd⟩ : ∃ d, min (k * s + s) pdf.pages.length - k * s = d + 1 :=
        ⟨min (k * s + s) pdf.pages.length - k * s - 1, by omega⟩
      simp only [strideEntry, hd, List.range'_succ, List.map_cons, List.head?_cons]
      push_cast
      rfl
    · simp only [partNumber, hs0, if_false]
      congr 1
      push_cast
      field_simp
    · simp only [strideEntry]
      push_cast
      rfl
  · have hnames : ((List.range (partCount pdf.getPageCount s)).map (strideEntry pdf s)).map
        ArchiveEntry.name = (List.range (partCount pdf.getPageCount s)).map
          (fun k => some ("part_" ++ toString (k + 1) ++ ".pdf")) := by
      rw [List.map_map]
      apply List.map_congr_left
      intro k _
      exact strideEntry_name pdf s k
    rw [hnames]
    apply List.Nodup.map _ (List.nodup_range _)
    intro a b hab
    have := partName_injective (a + 1) (b + 1) (Option.some.inj hab)
    omega


/-! ## Instances at concrete requests -/

/-- Five pages split two by two. -/
theorem split_part_count_and_sizes_witness :
    (fivePages.getPageCount = 5 ∧ resolvePagesPerSplit ((5 : Nat) : Int) ⟨none, some 2⟩ = 2 ∧
      (1 : Int) ≤ 2 ∧ 5 ≤ 5) ∧
    ∃ entries : List (ArchiveEntry Nat),
      splitHandler 5 (some (.pdf fivePages)) ⟨none, some 2⟩ = .finalized entries ∧
      (entries.length : Int) = ⌈((5 : Nat) : ℚ) / (((2 : Int)) : ℚ)⌉ ∧
      (∀ k e, entries[k]? = some e → k + 1 < entries.length → (e.pageCount : Int) = 2) ∧
      (∀ e, entries.getLast? = some e →
        (e.pageCount : Int) = ((5 : Nat) : Int) - 2 * (⌈((5 : Nat) : ℚ) / ((2 : Int) : ℚ)⌉ - 1)) ∧
      (5 = 0 → entries = []) ∧
      (1 ≤ 5 → ((5 : Nat) : Int) < 2 → ∃ e, entries = [e] ∧ e.pages = fivePages.pages) :=
  ⟨⟨rfl, by decide, by decide, by decide⟩,
    split_part_count_and_sizes fivePages ⟨none, some 2⟩ 5 5 2 rfl (by decide) (by decide)
      (by decide)⟩

/-- Five pages split two by two. -/
theorem split_part_indices_witness :
    (fivePages.getPageCount = 5 ∧ resolvePagesPerSplit ((5 : Nat) : Int) ⟨none, some 2⟩ = 2 ∧
      (1 : Int) ≤ 2 ∧ 5 ≤ 5) ∧
    ∃ entries : List (ArchiveEntry Nat),
      splitHandler 5 (some (.pdf fivePages)) ⟨none, some 2⟩ = .finalized entries ∧
      (∀ (k : Nat) (e : ArchiveEntry Nat), entries[k]? = some e →
        e.pagesToCopy.Pairwise (fun a b => a < b) ∧
        (∀ x : Int, x ∈ e.pagesToCopy ↔
          (k : Int) * 2 ≤ x ∧ x < min (((k : Int) + 1) * 2) ((5 : Nat) : Int)) ∧
        copyPages fivePages e.pagesToCopy = .ok e.pages) ∧
      (entries.map ArchiveEntry.pagesToCopy).flatten =
        (List.range 5).map (fun (j : Nat) => (j : Int)) ∧
      (entries.map ArchiveEntry.pages).flatten = fivePages.pages :=
  ⟨⟨rfl, by decide, by decide, by decide⟩,
    split_part_indices fivePages ⟨none, some 2⟩ 5 5 2 rfl (by decide) (by decide) (by decide)⟩

/-- Ten pages in three parts. -/
theorem parts_takes_precedence_witness :
    ((0 : Int) < 3 ∧ tenPages.getPageCount = 10 ∧ 10 ≤ 10) ∧
    resolvePagesPerSplit ((10 : Nat) : Int) ⟨some 3, some 1⟩ = ⌈((10 : Nat) : ℚ) / ((3 : Int) : ℚ)⌉ ∧
    resolvePagesPerSplit 10 ⟨some 3, some 1⟩ = 4 ∧
    ∃ entries : List (ArchiveEntry Nat),
      splitHandler 10 (some (.pdf tenPages)) ⟨some 3, some 1⟩ = .finalized entries ∧
      entries.map ArchiveEntry.pageCount = [4, 4, 2] :=
  ⟨⟨by decide, rfl, by decide⟩,
    parts_takes_precedence.1 10 3 (some 1) (by decide),
    parts_takes_precedence.2 Nat tenPages 10 rfl (by decide)⟩

/-- Two documents merged. -/
theorem merge_concatenates_pages_witness :
    (2 ≤ [twoPages, fivePages].length ∧
      1 ≤ ([twoPages, fivePages].map PDFDocument.getPageCount).sum) ∧
    ∃ out : PDFDocument Nat,
      (mergeHandler (some ([twoPages, fivePages].map Buffer.pdf))).responses =
        [⟨200, [("Content-Type", "application/pdf"),
            ("Content-Disposition", "attachment; filename=\"merged.pdf\"")],
          .bytes (.pdf out)⟩] ∧
      out.pages = ([twoPages, fivePages].map PDFDocument.pages).flatten ∧
      out.getPageCount = ([twoPages, fivePages].map PDFDocument.getPageCount).sum :=
  ⟨⟨by decide, by decide⟩, merge_concatenates_pages [twoPages, fivePages] (by decide) (by decide)⟩

/-- Five pages split two by two and merged again. -/
theorem split_then_merge_restores_pages_witness :
    (fivePages.getPageCount = 5 ∧ resolvePagesPerSplit ((5 : Nat) : Int) ⟨none, some 2⟩ = 2 ∧
      (1 : Int) ≤ 2 ∧ (2 : Int) < ((5 : Nat) : Int) ∧ 5 ≤ 5) ∧
    ∃ (entries : List (ArchiveEntry Nat)) (out : PDFDocument Nat),
      splitHandler 5 (some (.pdf fivePages)) ⟨none, some 2⟩ = .finalized entries ∧
      2 ≤ entries.length ∧
      (mergeHandler (some (entries.map ArchiveEntry.data))).responses =
        [⟨200, [("Content-Type", "application/pdf"),
            ("Content-Disposition", "attachment; filename=\"merged.pdf\"")],
          .bytes out.save⟩] ∧
      out.pages = fivePages.pages :=
  ⟨⟨rfl, by decide, by decide, by decide, by decide⟩,
    split_then_merge_restores_pages fivePages ⟨none, some 2⟩ 5 5 2 rfl (by decide) (by decide)
      (by decide) (by decide)⟩

/-- A single upload. -/
theorem merge_rejects_fewer_than_two_witness :
    (∃ l, some [Buffer.pdf twoPages] = some l ∧ l.length < 2) ∧
    mergeHandler (some [Buffer.pdf twoPages]) =
      { calls := [], responses := [⟨400, [], .json "Upload at least 2 PDFs"⟩] } :=
  ⟨⟨[Buffer.pdf twoPages], rfl, by decide⟩,
    merge_rejects_fewer_than_two (some [Buffer.pdf twoPages])
      (Or.inr ⟨[Buffer.pdf twoPages], rfl, by decide⟩)⟩

/-- Two pages and five requested parts. -/
theorem split_more_parts_than_pages_witness :
    (twoPages.getPageCount = 2 ∧ 1 ≤ 2 ∧ ((2 : Nat) : Int) < 5 ∧ 2 ≤ 2) ∧
    ∃ entries : List (ArchiveEntry Nat),
      splitHandler 2 (some (.pdf twoPages)) ⟨some 5, none⟩ = .finalized entries ∧
      entries.length = 2 ∧
      ∀ e ∈ entries, e.pageCount = 1 :=
  ⟨⟨rfl, by decide, by decide, by decide⟩,
    split_more_parts_than_pages twoPages 2 2 5 none rfl (by decide) (by decide) (by decide)⟩

/-- Five pages split two by two. -/
theorem split_entry_names_witness :
    (fivePages.getPageCount = 5 ∧ resolvePagesPerSplit ((5 : Nat) : Int) ⟨none, some 2⟩ = 2 ∧
      (1 : Int) ≤ 2 ∧ 5 ≤ 5) ∧
    ∃ entries : List (ArchiveEntry Nat),
      splitHandler 5 (some (.pdf fivePages)) ⟨none, some 2⟩ = .finalized entries ∧
      (entries.length : Int) = ⌈((5 : Nat) : ℚ) / ((2 : Int) : ℚ)⌉ ∧
      (∀ (k : Nat) (e : ArchiveEntry Nat), entries[k]? = some e →
        e.pagesToCopy.head? = some ((k : Int) * 2) ∧
        partNumber ((k : Int) * 2) 2 = some (((k + 1 : Nat) : ℚ)) ∧
        e.partNumber = some (((k + 1 : Nat) : ℚ)) ∧
        e.name = some ("part_" ++ toString (k + 1) ++ ".pdf")) ∧
      (entries.map ArchiveEntry.name).Nodup :=
  ⟨⟨rfl, by decide, by decide, by decide⟩,
    split_entry_names fivePages ⟨none, some 2⟩ 5 5 2 rfl (by decide) (by decide) (by decide)⟩

/-- Five pages and three requested parts. -/
theorem split_at_most_parts_witness :
    ((0 : Int) < 3 ∧ fivePages.getPageCount ≤ 5) ∧
    ∃ entries : List (ArchiveEntry Nat),
      splitHandler 5 (some (.pdf fivePages)) ⟨some 3, none⟩ = .finalized entries ∧
      (entries.length : Int) ≤ 3 :=
  ⟨⟨by decide, by decide⟩, split_at_most_parts fivePages 5 3 none (by decide) (by decide)⟩

end MergeSplit
